import Mathlib

/-!
# Verification of the Galaxy racing game (game.py / highscore.py / config.py)

Shallow embedding of the core game logic of the tkinter "Galaxy" racing
game.  Machine floats are modelled by exact rationals (ℚ), Python ints by ℤ,
Python lists by Lean lists.  Randomness (`random.randint`, `random.random`,
`random.choice`) is modelled by explicit oracle parameters, so every theorem
quantifies over all possible random draws.
-/

set_option linter.unusedVariables false

namespace Galaxy

/-- `config.WINDOW_WIDTH` (= 1024). -/
def WINDOW_WIDTH : ℚ := 1024

/-- `config.WINDOW_HEIGHT` (= 800). -/
def WINDOW_HEIGHT : ℚ := 800

/-- `GalaxyGame.V_NB_LINES` (= 8). -/
def V_NB_LINES : ℤ := 8

/-- `GalaxyGame.V_LINES_SPACING` (= 0.4). -/
def V_LINES_SPACING : ℚ := 2/5

/-- `GalaxyGame.H_NB_LINES` (= 8). -/
def H_NB_LINES : ℤ := 8

/-- `GalaxyGame.H_LINES_SPACING` (= 0.15). -/
def H_LINES_SPACING : ℚ := 3/20

/-- `GalaxyGame.NB_TILES` (= 16). -/
def NB_TILES : ℕ := 16

/-- `GalaxyGame.COLLISION_START_LOOP` (= 5). -/
def COLLISION_START_LOOP : ℤ := 5

/-- `GalaxyGame.MAX_OBSTACLES` (= 6). -/
def MAX_OBSTACLES : ℕ := 6

/-- `GalaxyGame.JUMP_DURATION` (= 0.6 s). -/
def JUMP_DURATION : ℚ := 3/5

/-- `GalaxyGame.JUMP_COOLDOWN` (= 0.3 s). -/
def JUMP_COOLDOWN : ℚ := 3/10

/-- `self.perspective_point_x = WINDOW_WIDTH / 2`. -/
def perspective_point_x : ℚ := WINDOW_WIDTH / 2

/-- `self.perspective_point_y = WINDOW_HEIGHT * 0.75`. -/
def perspective_point_y : ℚ := WINDOW_HEIGHT * (3/4)

/-- Row height, `spacing_y = H_LINES_SPACING * WINDOW_HEIGHT` (= 120),
as computed in `_game_loop` and `get_line_y_from_index`. -/
def spacing_y : ℚ := H_LINES_SPACING * WINDOW_HEIGHT

/-- `config.DIFFICULTIES` entry: base vertical and horizontal speeds. -/
structure DifficultySettings where
  speed : ℚ
  speed_x : ℚ
  deriving Repr, DecidableEq

/-- `config.DIFFICULTIES` lookup; unknown names fall back to `"Normal"`
(as in `DIFFICULTIES.get(name, DIFFICULTIES["Normal"])`). -/
def DIFFICULTIES (name : String) : DifficultySettings :=
  if name = "Easy" then ⟨3/5, 5/2⟩
  else if name = "Hard" then ⟨11/10, 9/2⟩
  else ⟨4/5, 7/2⟩

/-- The game-logic state of `GalaxyGame` (the fields of the class touched
by movement, track generation, collision and jump logic; canvas item ids
and audio are rendering-only and omitted). -/
structure GameState where
  current_offset_x : ℚ
  current_offset_y : ℚ
  current_y_loop : ℤ
  tiles_coordinates : List (ℤ × ℤ)
  obstacle_coords : List (ℤ × ℤ)
  ship_coordinates : List (ℚ × ℚ)
  allow_collisions : Bool
  state_game_over : Bool
  state_game_has_started : Bool
  paused : Bool
  level : ℤ
  difficulty : String
  speed_y_base : ℚ
  speed_x_base : ℚ
  current_tile_color : String
  jump_active : Bool
  jump_timer : ℚ
  jump_cooldown_timer : ℚ
  deriving Repr, DecidableEq

/-- `get_line_x_from_index`: world X of vertical grid line `index`. -/
def get_line_x_from_index (s : GameState) (index : ℚ) : ℚ :=
  perspective_point_x + (index - 1/2) * (V_LINES_SPACING * WINDOW_WIDTH)
    + s.current_offset_x

/-- `get_line_y_from_index`: world Y of horizontal grid line `index`. -/
def get_line_y_from_index (s : GameState) (index : ℚ) : ℚ :=
  index * (H_LINES_SPACING * WINDOW_HEIGHT) - s.current_offset_y

/-- `get_tile_coordinates`: world coordinates of grid position
`(ti_x, ti_y)`, adjusting the row by `current_y_loop`. -/
def get_tile_coordinates (s : GameState) (ti_x ti_y : ℤ) : ℚ × ℚ :=
  let ty : ℤ := ti_y - s.current_y_loop
  (get_line_x_from_index s (ti_x : ℚ), get_line_y_from_index s (ty : ℚ))

/-- `_check_ship_collision_with_tile`: true iff some ship vertex lies in
the world-space bounds of tile `(ti_x, ti_y)`. -/
def check_ship_collision_with_tile (s : GameState) (ti_x ti_y : ℤ) : Bool :=
  let pmin := get_tile_coordinates s ti_x ti_y
  let pmax := get_tile_coordinates s (ti_x + 1) (ti_y + 1)
  s.ship_coordinates.any fun p =>
    decide (pmin.1 ≤ p.1 ∧ p.1 ≤ pmax.1 ∧ pmin.2 ≤ p.2 ∧ p.2 ≤ pmax.2)

/-- `_check_ship_collisions`: the ship is off track (collision) iff
collisions are enabled and no tile with row in
`[current_y_loop - 1, current_y_loop + 2]` contains a ship vertex. -/
def check_ship_collisions (s : GameState) : Bool :=
  if !s.allow_collisions then false
  else
    ! (s.tiles_coordinates.any fun t =>
        decide (s.current_y_loop - 1 ≤ t.2 ∧ t.2 ≤ s.current_y_loop + 2) &&
        check_ship_collision_with_tile s t.1 t.2)

/-- `_try_jump`: activate a jump only when the game is actively playing,
no jump is active, and the cooldown has elapsed. -/
def try_jump (s : GameState) : GameState :=
  if !s.state_game_has_started || s.state_game_over || s.paused then s
  else if s.jump_active then s
  else if 0 < s.jump_cooldown_timer then s
  else { s with jump_active := true
                jump_timer := JUMP_DURATION
                jump_cooldown_timer := JUMP_DURATION + JUMP_COOLDOWN }

/-- `_update_jump_timers`: tick the jump timer (clearing `jump_active` when
it reaches 0) and the cooldown timer (clamped at 0). -/
def update_jump_timers (dt : ℚ) (s : GameState) : GameState :=
  let s1 :=
    if s.jump_active then
      let sa := { s with jump_timer := s.jump_timer - dt }
      if sa.jump_timer ≤ 0 then { sa with jump_active := false } else sa
    else s
  if 0 < s1.jump_cooldown_timer then
    let s2 := { s1 with jump_cooldown_timer := s1.jump_cooldown_timer - dt }
    if s2.jump_cooldown_timer < 0 then { s2 with jump_cooldown_timer := 0 } else s2
  else s1

/-- `transform_perspective`, step 1: linear Y scaling,
`lin_y = y * perspective_point_y / WINDOW_HEIGHT`. -/
def lin_y_raw (y : ℚ) : ℚ := y * perspective_point_y / WINDOW_HEIGHT

/-- `transform_perspective`, step 2: clamp `lin_y` to the vanishing point. -/
def lin_y_clamped (y : ℚ) : ℚ :=
  if lin_y_raw y > perspective_point_y then perspective_point_y else lin_y_raw y

/-- `transform_perspective`, step 3: the depth factor
`factor_y = ((perspective_point_y - lin_y) / perspective_point_y) ** 4`. -/
def factor_y (y : ℚ) : ℚ :=
  ((perspective_point_y - lin_y_clamped y) / perspective_point_y) ^ 4

/-- Python `int(...)` on a rational: truncation toward zero. -/
def pyInt (q : ℚ) : ℤ := if 0 ≤ q then ⌊q⌋ else ⌈q⌉

/-- `transform_perspective`: world coordinates to integer screen
coordinates (the perspective reference points are the constants
`perspective_point_x/y`, so no further state enters). -/
def transform_perspective (x y : ℚ) : ℤ × ℤ :=
  let diff_x := x - perspective_point_x
  let offset_x := diff_x * factor_y y
  let tr_x := perspective_point_x + offset_x
  let tr_y := perspective_point_y - factor_y y * perspective_point_y
  let tr_y_tk := WINDOW_HEIGHT - tr_y
  (pyInt tr_x, pyInt tr_y_tk)

/-- `self.tile_colors` palette. -/
def tile_colors : List String :=
  ["#aaaaaa", "#ffcc00", "#00ff99", "#00ccff", "#ff66cc", "#ff4444"]

/-- The score band computed in `_update_tile_color_by_score`:
`band = current_y_loop // 100` (Python floor division). -/
def band_of (y_loop : ℤ) : ℤ := Int.fdiv y_loop 100

/-- `_on_level_changed`: recompute the base speeds from the selected
difficulty with the exponential factor `1.08 ** band` (1.08 = 27/25). -/
def on_level_changed (band : ℤ) (s : GameState) : GameState :=
  let base := DIFFICULTIES s.difficulty
  let factor : ℚ := (27/25) ^ band.toNat
  { s with speed_y_base := base.speed * factor
           speed_x_base := base.speed_x * factor }

/-- `_update_tile_color_by_score`: recolour the track from the score band
and fire the level-change handler when a new nonzero band is entered. -/
def update_tile_color_by_score (s : GameState) : GameState :=
  let band := band_of s.current_y_loop
  let s1 := { s with current_tile_color := tile_colors.getD (band.emod 6).toNat "" }
  if band > 0 ∧ band ≠ s1.level then
    { on_level_changed band s1 with level := band }
  else s1

/-- `highscore.save_high_score`: best-effort write of `str(int(value))`.
The file is modelled as an optional stored integer, `ok` models whether
the write succeeds; on failure the exception is swallowed and the file is
left unchanged. -/
def save_high_score (value : ℤ) (file : Option ℤ) (ok : Bool) : Option ℤ :=
  if ok then some value else file

/-- `highscore.load_high_score`: the stored value clamped to be
nonnegative; a missing or corrupted file yields 0. -/
def load_high_score (file : Option ℤ) : ℤ :=
  match file with
  | some v => max 0 v
  | none => 0

/-- `_init_obstacles`: the pooled obstacle slots, all inactive
(coordinates `(-999, -999)`). -/
def init_obstacle_coords : List (ℤ × ℤ) := List.replicate MAX_OBSTACLES (-999, -999)

/-- One step of the `rows.setdefault(y, set()).add(x)` accumulation in
`_maybe_spawn_obstacle`, on an association list keeping insertion order:
add lane `x` to row `y`, creating the row if absent, skipping duplicates
(set semantics). -/
def rowsInsert (rows : List (ℤ × List ℤ)) (y x : ℤ) : List (ℤ × List ℤ) :=
  match rows with
  | [] => [(y, [x])]
  | r :: rest =>
    if r.1 = y then
      (r.1, if x ∈ r.2 then r.2 else r.2 ++ [x]) :: rest
    else r :: rowsInsert rest y x

/-- The row-grouping loop of `_maybe_spawn_obstacle`: group tile lanes by
row, skipping rows with `y <= current_y_loop + 1` (too close to the
player). -/
def buildRows (cur : ℤ) (tiles : List (ℤ × ℤ)) : List (ℤ × List ℤ) :=
  tiles.foldl (fun rows t => if t.2 ≤ cur + 1 then rows else rowsInsert rows t.2 t.1) []

/-- Well-formedness of the grouped rows: every row lies strictly beyond
`current_y_loop + 1`, its lane set has no duplicates, and every recorded
lane comes from an actual tile of that row. -/
def rowsWellFormed (cur : ℤ) (tiles : List (ℤ × ℤ))
    (rows : List (ℤ × List ℤ)) : Prop :=
  ∀ r ∈ rows, cur + 1 < r.1 ∧ r.2.Nodup ∧ ∀ a ∈ r.2, (a, r.1) ∈ tiles

/-- `_maybe_spawn_obstacle`: with probability depending on the level,
place an obstacle on a randomly chosen safe row/lane in the first free
pool slot.  `u` models `random.random()`, `ri`/`rj` model the two
`random.choice` draws. -/
def maybe_spawn_obstacle (u : ℚ) (ri rj : ℕ) (s : GameState) : GameState :=
  if s.level < 1 then s
  else if min (3/10 + 1/10 * (s.level : ℚ)) (7/10) < u then s
  else
    let candidates := (buildRows s.current_y_loop s.tiles_coordinates).filter
      (fun r => decide (2 ≤ r.2.length))
    if hc : candidates.length = 0 then s
    else
      let c := candidates.get ⟨ri % candidates.length, Nat.mod_lt _ (Nat.pos_of_ne_zero hc)⟩
      if hx : c.2.length = 0 then s
      else
        let x := c.2.get ⟨rj % c.2.length, Nat.mod_lt _ (Nat.pos_of_ne_zero hx)⟩
        match s.obstacle_coords.findIdx? (fun o => o == (-999, -999)) with
        | none => s
        | some idx => { s with obstacle_coords := s.obstacle_coords.set idx (x, c.1) }

/-- `start_index = -int(V_NB_LINES / 2) + 1` (= −3), the leftmost lane of
the renderable band, as computed in `_generate_tiles_coordinates`. -/
def start_index : ℤ := -(V_NB_LINES / 2) + 1

/-- `end_index = start_index + V_NB_LINES - 1` (= 4), the rightmost lane. -/
def end_index : ℤ := start_index + V_NB_LINES - 1

/-- One iteration of the generation loop of `_generate_tiles_coordinates`:
`r` is the `random.randint(0, 2)` draw (0 = straight, 1 = right, 2 = left),
forced to 1/2 at the outer lane boundaries; returns the appended tiles and
the updated `(last_x, last_y)`. -/
def genStep (r : ℕ) (x y : ℤ) : List (ℤ × ℤ) × ℤ × ℤ :=
  let r := if x ≤ start_index then 1 else r
  let r := if end_index ≤ x then 2 else r
  if r = 1 then ([(x, y), (x + 1, y), (x + 1, y + 1)], x + 1, y + 2)
  else if r = 2 then ([(x, y), (x - 1, y), (x - 1, y + 1)], x - 1, y + 2)
  else ([(x, y)], x, y + 1)

/-- The `for _ in range(len(tiles_coordinates), NB_TILES)` generation loop:
`n` iterations remain, `rs i % 3` models the i-th `random.randint(0, 2)`
draw. -/
def genLoop (rs : ℕ → ℕ) (i : ℕ) (n : ℕ) (x y : ℤ) : List (ℤ × ℤ) :=
  match n with
  | 0 => []
  | Nat.succ m =>
    let step := genStep (rs i % 3) x y
    step.1 ++ genLoop rs (i + 1) m step.2.1 step.2.2

/-- The eviction loop of `_generate_tiles_coordinates`:
`for i in range(len - 1, -1, -1): if tiles[i][1] < current_y_loop: del tiles[i]`,
processing indices from high to low. -/
def evictLoop (cur : ℤ) : List (ℤ × ℤ) → ℕ → List (ℤ × ℤ)
  | l, 0 => l
  | l, n + 1 =>
    let l' := match l[n]? with
      | some t => if t.2 < cur then l.eraseIdx n else l
      | none => l
    evictLoop cur l' n

/-- `_generate_tiles_coordinates`: evict off-screen tiles, continue the
path from the last remaining tile (or from `(0, 5)` if none), and append
fresh tiles until the loop has run `NB_TILES - len` times.
(The trailing `_maybe_spawn_obstacle` call does not touch the tiles.) -/
def generate_tiles (rs : ℕ → ℕ) (cur : ℤ) (tiles : List (ℤ × ℤ)) : List (ℤ × ℤ) :=
  let kept := evictLoop cur tiles tiles.length
  let start : ℤ × ℤ := match kept.getLast? with
    | some t => (t.1, t.2 + 1)
    | none => (0, 5)
  kept ++ genLoop rs 0 (NB_TILES - kept.length) start.1 start.2

/-- The straight starting track laid down by `_reset_tiles`:
`for i in range(5, 15): tiles_coordinates.append((0, i))`. -/
def init_track : List (ℤ × ℤ) :=
  [(0, 5), (0, 6), (0, 7), (0, 8), (0, 9), (0, 10), (0, 11), (0, 12), (0, 13), (0, 14)]

/-- `_reset_tiles`: initial straight track followed by one generator call
(with `current_y_loop = 0`). -/
def reset_tiles (rs : ℕ → ℕ) : List (ℤ × ℤ) := generate_tiles rs 0 init_track

/-- All lanes lie in the renderable band `[start_index, end_index]`. -/
def laneInBand (tiles : List (ℤ × ℤ)) : Prop :=
  ∀ t ∈ tiles, start_index ≤ t.1 ∧ t.1 ≤ end_index

/-- Row `y` is present in the track. -/
def rowHas (tiles : List (ℤ × ℤ)) (y : ℤ) : Prop := ∃ x, (x, y) ∈ tiles

/-- Every present row is reachable from the row before it: consecutive
present rows always share a lane. -/
def rowsLinked (tiles : List (ℤ × ℤ)) : Prop :=
  ∀ y, rowHas tiles y → rowHas tiles (y + 1) →
    ∃ x, (x, y) ∈ tiles ∧ (x, y + 1) ∈ tiles

/-- Tile rows are nondecreasing along the list (the generator appends the
path in travel order). -/
def rowsMonotone (tiles : List (ℤ × ℤ)) : Prop :=
  tiles.Pairwise (fun a b => a.2 ≤ b.2)

/-- The track invariant: rows in travel order, no disconnected row, lanes
inside the band. -/
def trackInv (tiles : List (ℤ × ℤ)) : Prop :=
  rowsMonotone tiles ∧ rowsLinked tiles ∧ laneInBand tiles

/-- The state touched by the score/row-crossing `while` loop of
`_game_loop` (lines 841-855 of game.py): the vertical scroll offset
`current_offset_y`, the row counter `current_y_loop`, the
`allow_collisions` flag, and a ghost counter recording how many times
`_generate_tiles_coordinates` (track generation with its spawn and
progression logic) has been invoked. -/
structure ScoreLoopState where
  offset_y : ℚ
  y_loop : ℤ
  allow : Bool
  genCalls : ℕ
  deriving Repr, DecidableEq

/-- The `while self.current_offset_y >= spacing_y` loop of `_game_loop`:
subtract one row height, increment `current_y_loop`, invoke track
generation once (counted by `genCalls`), and set `allow_collisions`
once `current_y_loop >= COLLISION_START_LOOP`. -/
def score_loop (s : ScoreLoopState) : ScoreLoopState :=
  if h : spacing_y ≤ s.offset_y then
    score_loop
      { offset_y := s.offset_y - spacing_y
        y_loop := s.y_loop + 1
        allow := s.allow || decide (COLLISION_START_LOOP ≤ s.y_loop + 1)
        genCalls := s.genCalls + 1 }
  else s
termination_by (⌊s.offset_y / spacing_y⌋).toNat
decreasing_by
  have hs : (0:ℚ) < spacing_y := by norm_num [spacing_y, H_LINES_SPACING, WINDOW_HEIGHT]
  have h1 : (s.offset_y - spacing_y) / spacing_y = s.offset_y / spacing_y - 1 := by
    field_simp
  have h2 : (1:ℚ) ≤ s.offset_y / spacing_y := (one_le_div hs).mpr h
  have h3 : (1:ℤ) ≤ ⌊s.offset_y / spacing_y⌋ := by
    exact_mod_cast Int.le_floor.mpr (by exact_mod_cast h2)
  have h4 : ⌊(s.offset_y - spacing_y) / spacing_y⌋ = ⌊s.offset_y / spacing_y⌋ - 1 := by
    rw [h1]
    exact_mod_cast Int.floor_sub_int (s.offset_y / spacing_y) 1
  omega

/-- The start of a `_game_loop` tick in the Playing phase: the scaled
vertical speed `speed_y = speed_y_base * WINDOW_HEIGHT / 100 * time_factor`
is added to `current_offset_y`, then the row-crossing loop runs. -/
def game_tick_scroll (speed_y_base time_factor : ℚ) (s : ScoreLoopState) : ScoreLoopState :=
  score_loop { s with
    offset_y := s.offset_y + speed_y_base * WINDOW_HEIGHT / 100 * time_factor }

theorem spacing_y_pos : (0:ℚ) < spacing_y := by
  norm_num [spacing_y, H_LINES_SPACING, WINDOW_HEIGHT]

/-- Core behaviour of the row-crossing loop: starting from a nonnegative
offset, with `k = ⌊offset / spacing_y⌋`, the loop adds `k` to the row
counter, invokes generation `k` more times, and leaves
`offset - k * spacing_y ∈ [0, spacing_y)`. -/
theorem score_loop_spec (s : ScoreLoopState) (h0 : 0 ≤ s.offset_y) :
    (score_loop s).y_loop = s.y_loop + (⌊s.offset_y / spacing_y⌋).toNat ∧
    (score_loop s).genCalls = s.genCalls + (⌊s.offset_y / spacing_y⌋).toNat ∧
    (score_loop s).offset_y
      = s.offset_y - ((⌊s.offset_y / spacing_y⌋).toNat : ℚ) * spacing_y ∧
    0 ≤ (score_loop s).offset_y ∧ (score_loop s).offset_y < spacing_y := by
  induction s using score_loop.induct with
  | case1 s h ih =>
    have hs : (0:ℚ) < spacing_y := spacing_y_pos
    have h0' : 0 ≤ s.offset_y - spacing_y := by linarith
    obtain ⟨ih1, ih2, ih3, ih4, ih5⟩ := ih h0'
    have h1 : (s.offset_y - spacing_y) / spacing_y = s.offset_y / spacing_y - 1 := by
      field_simp
    have h4 : ⌊(s.offset_y - spacing_y) / spacing_y⌋ = ⌊s.offset_y / spacing_y⌋ - 1 := by
      rw [h1]
      exact_mod_cast Int.floor_sub_int (s.offset_y / spacing_y) 1
    have h2 : (1:ℚ) ≤ s.offset_y / spacing_y := (one_le_div hs).mpr h
    have h3 : (1:ℤ) ≤ ⌊s.offset_y / spacing_y⌋ := by
      exact_mod_cast Int.le_floor.mpr (by exact_mod_cast h2)
    have hkk : (⌊(s.offset_y - spacing_y) / spacing_y⌋).toNat + 1
        = (⌊s.offset_y / spacing_y⌋).toNat := by omega
    have hunf : score_loop s =
        score_loop
          { offset_y := s.offset_y - spacing_y
            y_loop := s.y_loop + 1
            allow := s.allow || decide (COLLISION_START_LOOP ≤ s.y_loop + 1)
            genCalls := s.genCalls + 1 } := by
      conv_lhs => rw [score_loop]
      rw [dif_pos h]
    rw [hunf]
    have hcast : ((⌊(s.offset_y - spacing_y) / spacing_y⌋).toNat : ℚ) + 1
        = ((⌊s.offset_y / spacing_y⌋).toNat : ℚ) := by exact_mod_cast congrArg Nat.cast hkk
    refine ⟨?_, ?_, ?_, ih4, ih5⟩
    · rw [ih1]; simp only []; omega
    · rw [ih2]; simp only []; omega
    · rw [ih3]; simp only []
      rw [← hcast]; ring
  | case2 s h =>
    have hs : (0:ℚ) < spacing_y := spacing_y_pos
    have hlt : s.offset_y < spacing_y := lt_of_not_le h
    have hfl : ⌊s.offset_y / spacing_y⌋ = 0 := by
      have hge : (0:ℚ) ≤ s.offset_y / spacing_y := div_nonneg h0 hs.le
      have hlt1 : s.offset_y / spacing_y < 1 := (div_lt_one hs).mpr hlt
      exact Int.floor_eq_zero_iff.mpr ⟨by exact_mod_cast hge, by exact_mod_cast hlt1⟩
    have hunf : score_loop s = s := by
      conv_lhs => rw [score_loop]
      rw [dif_neg h]
    rw [hunf, hfl]
    refine ⟨by simp, by simp, by simp, h0, hlt⟩

/-- C1: For every tick in the Playing phase, after the scaled vertical speed
`speed_y_base * WINDOW_HEIGHT / 100 * time_factor` is added to the vertical
scroll offset, if the resulting offset contains `k` whole row heights
(`k = ⌊offset / spacing_y⌋ ≥ 0`), then `current_y_loop` is incremented by
exactly `k`, track generation is invoked exactly `k` times (once per
crossing), and afterwards the offset lies in `[0, spacing_y)`. -/
theorem tick_row_crossings (speed_y_base time_factor : ℚ) (s : ScoreLoopState)
    (h0 : 0 ≤ s.offset_y + speed_y_base * WINDOW_HEIGHT / 100 * time_factor) :
    (game_tick_scroll speed_y_base time_factor s).y_loop
      = s.y_loop + (⌊(s.offset_y + speed_y_base * WINDOW_HEIGHT / 100 * time_factor)
          / spacing_y⌋).toNat ∧
    (game_tick_scroll speed_y_base time_factor s).genCalls
      = s.genCalls + (⌊(s.offset_y + speed_y_base * WINDOW_HEIGHT / 100 * time_factor)
          / spacing_y⌋).toNat ∧
    0 ≤ (game_tick_scroll speed_y_base time_factor s).offset_y ∧
    (game_tick_scroll speed_y_base time_factor s).offset_y < spacing_y := by
  obtain ⟨h1, h2, _, h4, h5⟩ := score_loop_spec
    { s with offset_y := s.offset_y + speed_y_base * WINDOW_HEIGHT / 100 * time_factor } h0
  exact ⟨h1, h2, h4, h5⟩

/-- Witness for `tick_row_crossings`: starting at offset 100 with
`speed_y_base = 25` and `time_factor = 2`, the post-add offset is 500,
which contains 4 whole row heights, so the row counter and the generation
counter both advance by 4. -/
theorem tick_row_crossings_witness :
    (game_tick_scroll 25 2 ⟨100, 0, false, 0⟩).y_loop = 4 ∧
    (game_tick_scroll 25 2 ⟨100, 0, false, 0⟩).genCalls = 4 ∧
    0 ≤ (game_tick_scroll 25 2 ⟨100, 0, false, 0⟩).offset_y ∧
    (game_tick_scroll 25 2 ⟨100, 0, false, 0⟩).offset_y < spacing_y := by
  obtain ⟨h1, h2, h3, h4⟩ := tick_row_crossings 25 2 ⟨100, 0, false, 0⟩
    (by norm_num [WINDOW_HEIGHT])
  have hk : (⌊(((100:ℚ) + 25 * WINDOW_HEIGHT / 100 * 2)) / spacing_y⌋).toNat = 4 := by
    norm_num [WINDOW_HEIGHT, spacing_y, H_LINES_SPACING]
    rfl
  rw [hk] at h1 h2
  exact ⟨h1, h2, h3, h4⟩

/-- C2: with `allow_collisions` tracking `current_y_loop ≥ COLLISION_START_LOOP`
(as maintained by `_game_loop`): below the threshold the off-track check never
reports a collision; at or above it, a tile in the row window
`[current_y_loop - 1, current_y_loop + 2]` containing a ship vertex makes the
per-tile test true and the off-track check report no collision; and the check
reports a collision exactly when no tile in the window contains any vertex. -/
theorem ship_offtrack_collision_spec (s : GameState)
    (hlink : s.allow_collisions = decide (COLLISION_START_LOOP ≤ s.current_y_loop)) :
    (s.current_y_loop < COLLISION_START_LOOP → check_ship_collisions s = false) ∧
    (COLLISION_START_LOOP ≤ s.current_y_loop →
      ∀ t ∈ s.tiles_coordinates,
        s.current_y_loop - 1 ≤ t.2 → t.2 ≤ s.current_y_loop + 2 →
        (∃ p ∈ s.ship_coordinates,
          (get_tile_coordinates s t.1 t.2).1 ≤ p.1 ∧
          p.1 ≤ (get_tile_coordinates s (t.1 + 1) (t.2 + 1)).1 ∧
          (get_tile_coordinates s t.1 t.2).2 ≤ p.2 ∧
          p.2 ≤ (get_tile_coordinates s (t.1 + 1) (t.2 + 1)).2) →
        check_ship_collision_with_tile s t.1 t.2 = true ∧
        check_ship_collisions s = false) ∧
    (COLLISION_START_LOOP ≤ s.current_y_loop →
      (check_ship_collisions s = true ↔
        ∀ t ∈ s.tiles_coordinates,
          s.current_y_loop - 1 ≤ t.2 → t.2 ≤ s.current_y_loop + 2 →
          check_ship_collision_with_tile s t.1 t.2 = false)) := by
  refine ⟨?_, ?_, ?_⟩
  · intro hlt
    have hfalse : s.allow_collisions = false := by
      rw [hlink]; simp; omega
    simp [check_ship_collisions, hfalse]
  · intro hge t ht h1 h2 ⟨p, hp, hb⟩
    have htrue : s.allow_collisions = true := by rw [hlink]; simp [hge]
    have htile : check_ship_collision_with_tile s t.1 t.2 = true := by
      simp only [check_ship_collision_with_tile, List.any_eq_true]
      exact ⟨p, hp, by simpa using hb⟩
    refine ⟨htile, ?_⟩
    simp only [check_ship_collisions, htrue, Bool.not_true, Bool.false_eq_true,
      if_false, Bool.not_eq_false', List.any_eq_true]
    exact ⟨t, ht, by simp [h1, h2, htile]⟩
  · intro hge
    have htrue : s.allow_collisions = true := by rw [hlink]; simp [hge]
    simp only [check_ship_collisions, htrue, Bool.not_true, Bool.false_eq_true,
      if_false, Bool.not_eq_true', List.any_eq_false]
    constructor
    · intro hall t ht h1 h2
      have := hall t ht
      simpa [h1, h2] using this
    · intro hall t ht
      by_cases hwin : s.current_y_loop - 1 ≤ t.2 ∧ t.2 ≤ s.current_y_loop + 2
      · simp [hwin, hall t ht hwin.1 hwin.2]
      · intro hcontra
        rw [Bool.and_eq_true, decide_eq_true_eq] at hcontra
        exact hwin hcontra.1

/-- Concrete state for the `ship_offtrack_collision_spec` witness: the game
past the tutorial threshold, zero offsets, a single tile at `(0, 10)` and
the standard ship triangle. -/
def collisionWitnessState : GameState where
  current_offset_x := 0
  current_offset_y := 0
  current_y_loop := 10
  tiles_coordinates := [(0, 10)]
  obstacle_coords := [(-999, -999)]
  ship_coordinates := [(2304/5, 32), (512, 60), (2816/5, 32)]
  allow_collisions := true
  state_game_over := false
  state_game_has_started := true
  paused := false
  level := 0
  difficulty := "Normal"
  speed_y_base := 4/5
  speed_x_base := 7/2
  current_tile_color := "#aaaaaa"
  jump_active := false
  jump_timer := 0
  jump_cooldown_timer := 0

/-- Witness for `ship_offtrack_collision_spec`: in `collisionWitnessState`
the tile `(0, 10)` contains the ship's left vertex, so the per-tile test is
true and the off-track check reports no collision. -/
theorem ship_offtrack_collision_spec_witness :
    check_ship_collision_with_tile collisionWitnessState 0 10 = true ∧
    check_ship_collisions collisionWitnessState = false := by
  have h := (ship_offtrack_collision_spec collisionWitnessState (by rfl)).2.1
    (by decide) (0, 10) (by simp [collisionWitnessState])
    (by decide) (by decide)
    ⟨(2304/5, 32), by simp [collisionWitnessState], by
      norm_num [get_tile_coordinates, get_line_x_from_index, get_line_y_from_index,
        collisionWitnessState, perspective_point_x, V_LINES_SPACING,
        WINDOW_WIDTH, WINDOW_HEIGHT, H_LINES_SPACING]⟩
  exact h

/-- C8: a jump request during cooldown or an active jump is a no-op;
starting a jump sets the jump timer to `JUMP_DURATION` and the cooldown
timer to `JUMP_DURATION + JUMP_COOLDOWN` (counting from jump start, not
completion); when the jump timer reaches 0 the active flag is cleared. -/
theorem jump_request_spec (s : GameState) (dt : ℚ) :
    ((0 < s.jump_cooldown_timer ∨ s.jump_active = true) → try_jump s = s) ∧
    (s.state_game_has_started = true → s.state_game_over = false → s.paused = false →
      s.jump_active = false → s.jump_cooldown_timer ≤ 0 →
      try_jump s = { s with jump_active := true
                            jump_timer := JUMP_DURATION
                            jump_cooldown_timer := JUMP_DURATION + JUMP_COOLDOWN }) ∧
    (s.jump_active = true → s.jump_timer - dt ≤ 0 →
      (update_jump_timers dt s).jump_active = false) := by
  refine ⟨?_, ?_, ?_⟩
  · intro h
    unfold try_jump
    split_ifs with h1 h2 h3
    · rfl
    · rfl
    · rfl
    · exfalso
      rcases h with hc | ha
      · exact h3 hc
      · exact h2 ha
  · intro h1 h2 h3 h4 h5
    unfold try_jump
    rw [h1, h2, h4]
    simp [h3, not_lt.mpr h5]
  · intro hact htime
    unfold update_jump_timers
    simp only [hact, if_true]
    have h0 : ({ s with jump_timer := s.jump_timer - dt } : GameState).jump_timer ≤ 0 := htime
    rw [if_pos h0]
    split_ifs <;> rfl

/-- Witness for `jump_request_spec`: a paused-free playing state with zero
cooldown starts a jump with timer 3/5 and cooldown 9/10; an active jump
with timer 1/2 ticked by dt = 1 clears the active flag; a state under
cooldown ignores the request. -/
theorem jump_request_spec_witness :
    (try_jump { collisionWitnessState with jump_cooldown_timer := 2 }
      = { collisionWitnessState with jump_cooldown_timer := 2 }) ∧
    (try_jump collisionWitnessState
      = { collisionWitnessState with
            jump_active := true
            jump_timer := JUMP_DURATION
            jump_cooldown_timer := JUMP_DURATION + JUMP_COOLDOWN }) ∧
    (update_jump_timers 1 { collisionWitnessState with
        jump_active := true, jump_timer := 1/2 }).jump_active = false := by
  refine ⟨?_, ?_, ?_⟩
  · exact (jump_request_spec { collisionWitnessState with jump_cooldown_timer := 2 } 0).1
      (Or.inl (by norm_num [collisionWitnessState]))
  · exact (jump_request_spec collisionWitnessState 0).2.1 rfl rfl rfl rfl
      (by norm_num [collisionWitnessState])
  · exact (jump_request_spec { collisionWitnessState with
        jump_active := true, jump_timer := 1/2 } 1).2.2 rfl (by norm_num)

/-- C10 (implicit): a jump request is ignored — the entire game state is
left unchanged — whenever the game has not started, is over, or is paused;
a jump can only begin in the Playing phase. -/
theorem jump_requires_playing (s : GameState)
    (h : s.state_game_has_started = false ∨ s.state_game_over = true ∨ s.paused = true) :
    try_jump s = s := by
  unfold try_jump
  have hcond : (!s.state_game_has_started || s.state_game_over || s.paused) = true := by
    rcases h with h | h | h <;> simp [h]
  rw [if_pos hcond]

/-- Witness for `jump_requires_playing`: a paused state (otherwise ready
to jump) ignores the jump request. -/
theorem jump_requires_playing_witness :
    try_jump { collisionWitnessState with paused := true }
      = { collisionWitnessState with paused := true } :=
  jump_requires_playing { collisionWitnessState with paused := true }
    (Or.inr (Or.inr rfl))

/-- C6: the perspective projection is a pure deterministic function —
identical `(x, y)` inputs give identical outputs; for every `y` at or above
the clamp threshold the scaled `y` is clamped to the vanishing point; the
depth factor is never negative (nor is the clamped distance to the
vanishing point). -/
theorem transform_perspective_pure_clamped (x y : ℚ) :
    transform_perspective x y = transform_perspective x y ∧
    0 ≤ factor_y y ∧
    (WINDOW_HEIGHT ≤ y → lin_y_clamped y = perspective_point_y) ∧
    0 ≤ perspective_point_y - lin_y_clamped y := by
  refine ⟨rfl, ?_, ?_, ?_⟩
  · unfold factor_y
    positivity
  · intro hy
    unfold lin_y_clamped
    split_ifs with hgt
    · rfl
    · push_neg at hgt
      have hge : perspective_point_y ≤ lin_y_raw y := by
        unfold lin_y_raw perspective_point_y WINDOW_HEIGHT at *
        nlinarith
      linarith
  · unfold lin_y_clamped
    split_ifs with hgt
    · linarith
    · push_neg at hgt
      linarith

/-- Witness for `transform_perspective_pure_clamped` at `(x, y) = (0, 1000)`:
the scaled y is clamped to the vanishing point 600 and the factor is
nonnegative. -/
theorem transform_perspective_pure_clamped_witness :
    transform_perspective 0 1000 = transform_perspective 0 1000 ∧
    0 ≤ factor_y 1000 ∧
    lin_y_clamped 1000 = perspective_point_y ∧
    0 ≤ perspective_point_y - lin_y_clamped 1000 := by
  obtain ⟨h1, h2, h3, h4⟩ := transform_perspective_pure_clamped 0 1000
  exact ⟨h1, h2, h3 (by norm_num [WINDOW_HEIGHT]), h4⟩

/-- C7: the score band (level) is `current_y_loop // 100` — 0 on rows
0–99 and 1 on rows 100–199 — and on entering a new nonzero band `b` the
base speeds are recomputed as the selected difficulty's base speeds times
`1.08 ^ b` (exactly, in rational arithmetic). -/
theorem level_band_and_speed_spec (s : GameState) :
    (∀ n : ℤ, 0 ≤ n → n ≤ 99 → band_of n = 0) ∧
    (∀ n : ℤ, 100 ≤ n → n ≤ 199 → band_of n = 1) ∧
    (0 < band_of s.current_y_loop → band_of s.current_y_loop ≠ s.level →
      (update_tile_color_by_score s).level = band_of s.current_y_loop ∧
      (update_tile_color_by_score s).speed_y_base
        = (DIFFICULTIES s.difficulty).speed * (27/25) ^ (band_of s.current_y_loop).toNat ∧
      (update_tile_color_by_score s).speed_x_base
        = (DIFFICULTIES s.difficulty).speed_x * (27/25) ^ (band_of s.current_y_loop).toNat) := by
  refine ⟨?_, ?_, ?_⟩
  · intro n h0 h99
    unfold band_of
    rw [Int.fdiv_eq_ediv _ (by norm_num)]
    omega
  · intro n h100 h199
    unfold band_of
    rw [Int.fdiv_eq_ediv _ (by norm_num)]
    omega
  · intro hpos hne
    unfold update_tile_color_by_score
    rw [if_pos ⟨hpos, hne⟩]
    unfold on_level_changed
    exact ⟨rfl, rfl, rfl⟩

/-- Witness for `level_band_and_speed_spec`: rows 50 and 150 sit in bands
0 and 1; at row 150 (level 0) the update sets level 1 and the Normal base
speeds 0.8 and 3.5 are scaled by 1.08. -/
theorem level_band_and_speed_spec_witness :
    band_of 50 = 0 ∧ band_of 150 = 1 ∧
    (update_tile_color_by_score { collisionWitnessState with
        current_y_loop := 150 }).level = band_of 150 ∧
    (update_tile_color_by_score { collisionWitnessState with
        current_y_loop := 150 }).speed_y_base
      = (DIFFICULTIES "Normal").speed * (27/25) ^ (band_of 150).toNat := by
  obtain ⟨hb0, hb1, hup⟩ := level_band_and_speed_spec
    { collisionWitnessState with current_y_loop := 150 }
  have h150 : band_of 150 = 1 := hb1 150 (by norm_num) (by norm_num)
  obtain ⟨hl, hy, hx⟩ := hup (by rw [h150]; norm_num)
    (by rw [h150]; norm_num [collisionWitnessState])
  exact ⟨hb0 50 (by norm_num) (by norm_num), h150, hl, hy⟩

/-- C9 counterexample: `save_high_score` does not clamp a negative value
before writing — saving −5 stores −5, not `max 0 (−5) = 0`. -/
theorem save_high_score_no_clamp_counterexample :
    save_high_score (-5) (some 3) true = some (-5) ∧
    save_high_score (-5) (some 3) true ≠ some (max 0 (-5)) := by
  constructor
  · rfl
  · decide

/-- C9 (amended): `save_high_score` writes the value as-is (no clamping at
write time); the clamp to `max 0 value` happens in `load_high_score`, so a
successful save followed by a load yields `max 0 value`; a failed write
leaves the stored file unchanged (the error is swallowed). -/
theorem save_load_high_score_spec :
    (∀ (v : ℤ) (f : Option ℤ), load_high_score (save_high_score v f true) = max 0 v) ∧
    (∀ (v : ℤ) (f : Option ℤ), save_high_score v f false = f) := by
  constructor
  · intro v f
    rfl
  · intro v f
    rfl

theorem rowsInsert_wf {cur y x : ℤ} {tiles : List (ℤ × ℤ)}
    {rows : List (ℤ × List ℤ)}
    (hrows : rowsWellFormed cur tiles rows)
    (hy : cur + 1 < y) (hx : (x, y) ∈ tiles) :
    rowsWellFormed cur tiles (rowsInsert rows y x) := by
  induction rows with
  | nil =>
    intro r hr
    simp only [rowsInsert, List.mem_singleton] at hr
    subst hr
    exact ⟨hy, List.nodup_singleton x, by intro a ha; simp at ha; subst ha; exact hx⟩
  | cons r0 rest ih =>
    obtain ⟨y0, xs0⟩ := r0
    intro r hr
    by_cases heq : y0 = y
    · by_cases hmem : x ∈ xs0
      · simp only [rowsInsert, if_pos heq, if_pos hmem] at hr
        rcases List.mem_cons.mp hr with hhead | htail
        · subst hhead
          exact hrows (y0, xs0) (List.mem_cons_self _ _)
        · exact hrows r (List.mem_cons_of_mem _ htail)
      · simp only [rowsInsert, if_pos heq, if_neg hmem] at hr
        rcases List.mem_cons.mp hr with hhead | htail
        · subst hhead
          obtain ⟨h1, h2, h3⟩ := hrows (y0, xs0) (List.mem_cons_self _ _)
          refine ⟨h1, ?_, ?_⟩
          · simp only [List.nodup_append, List.nodup_singleton, true_and]
            exact ⟨h2, by simpa [List.disjoint_singleton] using hmem⟩
          · intro a ha
            rcases List.mem_append.mp ha with h | h
            · exact h3 a h
            · simp only [List.mem_singleton] at h
              subst h
              simpa [heq] using hx
        · exact hrows r (List.mem_cons_of_mem _ htail)
    · simp only [rowsInsert, if_neg heq] at hr
      rcases List.mem_cons.mp hr with hhead | htail
      · subst hhead
        exact hrows (y0, xs0) (List.mem_cons_self _ _)
      · exact ih (fun q hq => hrows q (List.mem_cons_of_mem _ hq)) r htail

theorem buildRows_foldl_wf (cur : ℤ) (tiles : List (ℤ × ℤ)) :
    ∀ (l : List (ℤ × ℤ)) (rows : List (ℤ × List ℤ)),
      (∀ t ∈ l, t ∈ tiles) → rowsWellFormed cur tiles rows →
      rowsWellFormed cur tiles
        (l.foldl (fun rows t => if t.2 ≤ cur + 1 then rows else rowsInsert rows t.2 t.1) rows) := by
  intro l
  induction l with
  | nil => intro rows _ h; exact h
  | cons t rest ih =>
    intro rows hl h
    simp only [List.foldl_cons]
    refine ih _ (fun q hq => hl q (List.mem_cons_of_mem t hq)) ?_
    split_ifs with hclose
    · exact h
    · exact rowsInsert_wf h (by omega) (by
        have := hl t (List.mem_cons_self t rest)
        simpa using this)

theorem buildRows_wf (cur : ℤ) (tiles : List (ℤ × ℤ)) :
    rowsWellFormed cur tiles (buildRows cur tiles) := by
  unfold buildRows
  exact buildRows_foldl_wf cur tiles tiles [] (fun t ht => ht) (by intro r hr; simp at hr)

theorem maybe_spawn_obstacle_length (u : ℚ) (ri rj : ℕ) (s : GameState) :
    (maybe_spawn_obstacle u ri rj s).obstacle_coords.length
      = s.obstacle_coords.length := by
  simp only [maybe_spawn_obstacle]
  split_ifs <;> try rfl
  split
  · rfl
  · simp [List.length_set]

/-- C3: the obstacle pool never grows — after any spawn attempt the pool
still has `MAX_OBSTACLES` slots and at most `MAX_OBSTACLES` active
(non-sentinel) obstacles; any placed obstacle sits on a row strictly ahead
of `current_y_loop + 1` that has at least two distinct safe lanes; and
with no free slot the spawn silently leaves the state unchanged. -/
theorem obstacle_spawn_spec (u : ℚ) (ri rj : ℕ) (s : GameState) :
    (s.obstacle_coords.length = MAX_OBSTACLES →
      (maybe_spawn_obstacle u ri rj s).obstacle_coords.length = MAX_OBSTACLES ∧
      (maybe_spawn_obstacle u ri rj s).obstacle_coords.countP
          (fun o => !(o == (-999, -999))) ≤ MAX_OBSTACLES) ∧
    (maybe_spawn_obstacle u ri rj s = s ∨
      ∃ (idx : ℕ) (x y : ℤ),
        maybe_spawn_obstacle u ri rj s
          = { s with obstacle_coords := s.obstacle_coords.set idx (x, y) } ∧
        s.current_y_loop + 1 < y ∧
        ∃ x₁ x₂, x₁ ≠ x₂ ∧ (x₁, y) ∈ s.tiles_coordinates ∧
          (x₂, y) ∈ s.tiles_coordinates) ∧
    ((-999, -999) ∉ s.obstacle_coords → maybe_spawn_obstacle u ri rj s = s) := by
  refine ⟨?_, ?_, ?_⟩
  · intro hlen
    have hpres := maybe_spawn_obstacle_length u ri rj s
    rw [hlen] at hpres
    exact ⟨hpres, le_trans (List.countP_le_length _) (le_of_eq hpres)⟩
  · simp only [maybe_spawn_obstacle]
    split_ifs with h1 h2 hc hx
    · exact Or.inl rfl
    · exact Or.inl rfl
    · exact Or.inl rfl
    · exact Or.inl rfl
    · split
      · exact Or.inl rfl
      · rename_i idx heq
        set candidates := (buildRows s.current_y_loop s.tiles_coordinates).filter
          (fun r => decide (2 ≤ r.2.length)) with hcand
        set c := candidates.get ⟨ri % candidates.length, Nat.mod_lt _ (Nat.pos_of_ne_zero hc)⟩
          with hcdef
        have hcmem : c ∈ candidates := List.get_mem _ _ _
        have hcfacts := List.mem_filter.mp hcmem
        have hwf := buildRows_wf s.current_y_loop s.tiles_coordinates c hcfacts.1
        have hlen2 : 2 ≤ c.2.length := by simpa using hcfacts.2
        obtain ⟨hrow, hnodup, hlanes⟩ := hwf
        have h0 : 0 < c.2.length := by omega
        have h1' : 1 < c.2.length := by omega
        refine Or.inr ⟨idx, _, c.1, rfl, hrow, c.2.get ⟨0, h0⟩, c.2.get ⟨1, h1'⟩, ?_, ?_, ?_⟩
        · intro hgeteq
          have := hnodup.get_inj_iff.mp hgeteq
          simp at this
        · exact hlanes _ (List.get_mem _ _ _)
        · exact hlanes _ (List.get_mem _ _ _)
  · intro hno
    simp only [maybe_spawn_obstacle]
    split_ifs <;> try rfl
    have hfind : s.obstacle_coords.findIdx? (fun o => o == (-999, -999)) = none := by
      rw [List.findIdx?_eq_none_iff]
      intro o ho
      have : o ≠ (-999, -999) := fun hcontra => hno (hcontra ▸ ho)
      simpa using this
    rw [hfind]

/-- Witness for `obstacle_spawn_spec`: a full 6-slot sentinel pool keeps
length 6 and at most 6 active obstacles after a spawn attempt; a pool with
no free slot leaves the state unchanged. -/
theorem obstacle_spawn_spec_witness :
    ((maybe_spawn_obstacle (1/2) 0 0 { collisionWitnessState with
        level := 1, obstacle_coords := init_obstacle_coords }).obstacle_coords.length
      = MAX_OBSTACLES) ∧
    (maybe_spawn_obstacle (1/2) 0 0 { collisionWitnessState with
        level := 1, obstacle_coords := [(0, 3)] }
      = { collisionWitnessState with level := 1, obstacle_coords := [(0, 3)] }) := by
  constructor
  · exact ((obstacle_spawn_spec (1/2) 0 0 { collisionWitnessState with
      level := 1, obstacle_coords := init_obstacle_coords }).1 (by decide)).1
  · exact (obstacle_spawn_spec (1/2) 0 0 { collisionWitnessState with
      level := 1, obstacle_coords := [(0, 3)] }).2.2 (by decide)

theorem evictLoop_take_drop (cur : ℤ) :
    ∀ (n : ℕ) (l : List (ℤ × ℤ)), n ≤ l.length →
      evictLoop cur l n
        = (l.take n).filter (fun t => !decide (t.2 < cur)) ++ l.drop n := by
  intro n
  induction n with
  | zero => intro l h; simp [evictLoop]
  | succ n ih =>
    intro l h
    have hn : n < l.length := h
    have hsome : l[n]? = some l[n] := List.getElem?_eq_getElem hn
    by_cases hev : l[n].2 < cur
    · have hstep : evictLoop cur l (n + 1) = evictLoop cur (l.eraseIdx n) n := by
        simp only [evictLoop, hsome, if_pos hev]
      rw [hstep, List.eraseIdx_eq_take_drop_succ]
      have hlenTake : (l.take n).length = n := by
        simp [List.length_take]; omega
      have hlen : n ≤ (l.take n ++ l.drop (n + 1)).length := by
        simp [List.length_take, List.length_drop]; omega
      rw [ih _ hlen, List.take_left' hlenTake, List.drop_left' hlenTake]
      have htake : (l.take (n + 1)).filter (fun t => !decide (t.2 < cur))
          = (l.take n).filter (fun t => !decide (t.2 < cur)) := by
        rw [List.take_succ, hsome, List.filter_append]
        simp [hev]
      rw [htake]
    · have hstep : evictLoop cur l (n + 1) = evictLoop cur l n := by
        simp only [evictLoop, hsome, if_neg hev]
      rw [hstep, ih _ hn.le]
      rw [List.take_succ, hsome, List.filter_append,
        List.drop_eq_getElem_cons hn]
      simp [hev]

theorem evictLoop_eq_filter (cur : ℤ) (l : List (ℤ × ℤ)) :
    evictLoop cur l l.length = l.filter (fun t => !decide (t.2 < cur)) := by
  have := evictLoop_take_drop cur l.length l le_rfl
  simpa using this

theorem genStep_shape (r : ℕ) (x y : ℤ) (h1 : start_index ≤ x) (h2 : x ≤ end_index) :
    genStep r x y = ([(x, y)], x, y + 1) ∨
    (∃ x', (x' = x + 1 ∨ x' = x - 1) ∧ start_index ≤ x' ∧ x' ≤ end_index ∧
      genStep r x y = ([(x, y), (x', y), (x', y + 1)], x', y + 2)) := by
  have hs : start_index = -3 := by decide
  have he : end_index = 4 := by decide
  unfold genStep
  simp only [hs, he] at h1 h2 ⊢
  by_cases hx1 : x ≤ -3
  · have hx2 : ¬ (4:ℤ) ≤ x := by omega
    simp only [if_pos hx1, if_neg hx2]
    right
    exact ⟨x + 1, Or.inl rfl, by omega, by omega, by simp⟩
  · by_cases hx2 : (4:ℤ) ≤ x
    · simp only [if_neg hx1, if_pos hx2]
      right
      exact ⟨x - 1, Or.inr rfl, by omega, by omega, by simp⟩
    · simp only [if_neg hx1, if_neg hx2]
      by_cases hr1 : r = 1
      · right
        exact ⟨x + 1, Or.inl rfl, by omega, by omega, by simp [hr1]⟩
      · by_cases hr2 : r = 2
        · right
          exact ⟨x - 1, Or.inr rfl, by omega, by omega, by simp [hr1, hr2]⟩
        · left
          simp [hr1, hr2]

theorem rowsLinked_single (x y : ℤ) : rowsLinked [(x, y)] := by
  rintro z ⟨a, ha⟩ ⟨b, hb⟩
  simp only [List.mem_singleton, Prod.mk.injEq] at ha hb
  exfalso
  omega

theorem rowsLinked_turn (x x' y : ℤ) :
    rowsLinked [(x, y), (x', y), (x', y + 1)] := by
  rintro z ⟨a, ha⟩ ⟨b, hb⟩
  simp only [List.mem_cons, List.not_mem_nil, or_false, Prod.mk.injEq] at ha hb
  have hz : z = y := by
    rcases ha with ⟨_, h⟩ | ⟨_, h⟩ | ⟨_, h⟩ <;>
      rcases hb with ⟨_, h'⟩ | ⟨_, h'⟩ | ⟨_, h'⟩ <;> omega
  subst hz
  exact ⟨x', by simp, by simp⟩

theorem rowsLinked_append {A B : List (ℤ × ℤ)} {m j : ℤ}
    (hA : rowsLinked A) (hB : rowsLinked B)
    (hAup : ∀ t ∈ A, t.2 ≤ m) (hBlow : ∀ t ∈ B, m + 1 ≤ t.2)
    (hjoin : B ≠ [] → (j, m) ∈ A ∧ (j, m + 1) ∈ B) :
    rowsLinked (A ++ B) := by
  rintro z ⟨a, ha⟩ ⟨b, hb⟩
  rcases List.mem_append.mp ha with haA | haB
  · rcases List.mem_append.mp hb with hbA | hbB
    · obtain ⟨w, h1, h2⟩ := hA z ⟨a, haA⟩ ⟨b, hbA⟩
      exact ⟨w, List.mem_append_left _ h1, List.mem_append_left _ h2⟩
    · have h1 : z ≤ m := hAup (a, z) haA
      have h2 : m + 1 ≤ z + 1 := hBlow (b, z + 1) hbB
      have hz : z = m := by omega
      subst hz
      obtain ⟨hjA, hjB⟩ := hjoin (List.ne_nil_of_mem hbB)
      exact ⟨j, List.mem_append_left _ hjA, List.mem_append_right _ hjB⟩
  · rcases List.mem_append.mp hb with hbA | hbB
    · have h1 : m + 1 ≤ z := hBlow (a, z) haB
      have h2 : z + 1 ≤ m := hAup (b, z + 1) hbA
      exfalso
      omega
    · obtain ⟨w, h1, h2⟩ := hB z ⟨a, haB⟩ ⟨b, hbB⟩
      exact ⟨w, List.mem_append_right _ h1, List.mem_append_right _ h2⟩

theorem rowsMonotone_le_getLast :
    ∀ (l : List (ℤ × ℤ)) (t : ℤ × ℤ), rowsMonotone l → l.getLast? = some t →
      ∀ a ∈ l, a.2 ≤ t.2 := by
  intro l
  induction l with
  | nil => intro t _ h; simp at h
  | cons b rest ih =>
    intro t hmono hlast a ha
    cases rest with
    | nil =>
      simp only [List.getLast?_singleton, Option.some.injEq] at hlast
      simp only [List.mem_singleton] at ha
      subst hlast
      subst ha
      exact le_rfl
    | cons c rest' =>
      rw [List.getLast?_cons_cons] at hlast
      rcases List.mem_cons.mp ha with hab | harest
      · subst hab
        have ht : t ∈ c :: rest' := List.mem_of_getLast?_eq_some hlast
        exact List.rel_of_pairwise_cons hmono ht
      · exact ih t (List.pairwise_cons.mp hmono).2 hlast a harest

theorem genLoop_inv (rs : ℕ → ℕ) :
    ∀ (n i : ℕ) (x y : ℤ), start_index ≤ x → x ≤ end_index →
      laneInBand (genLoop rs i n x y) ∧
      (∀ t ∈ genLoop rs i n x y, y ≤ t.2) ∧
      rowsMonotone (genLoop rs i n x y) ∧
      rowsLinked (genLoop rs i n x y) ∧
      (n ≠ 0 → (genLoop rs i n x y).head? = some (x, y)) := by
  intro n
  induction n with
  | zero =>
    intro i x y h1 h2
    refine ⟨?_, ?_, ?_, ?_, ?_⟩
    · intro t ht; simp [genLoop] at ht
    · intro t ht; simp [genLoop] at ht
    · simp [genLoop, rowsMonotone]
    · rintro z ⟨a, ha⟩ _
      simp [genLoop] at ha
    · intro hcontra; exact absurd rfl hcontra
  | succ m ih =>
    intro i x y h1 h2
    rcases genStep_shape (rs i % 3) x y h1 h2 with hst | ⟨x', hx'eq, hx'1, hx'2, hst⟩
    · have hL : genLoop rs i (m + 1) x y = [(x, y)] ++ genLoop rs (i + 1) m x (y + 1) := by
        simp only [genLoop, hst]
      obtain ⟨ihBand, ihRow, ihMono, ihLink, ihHead⟩ := ih (i + 1) x (y + 1) h1 h2
      rw [hL]
      refine ⟨?_, ?_, ?_, ?_, ?_⟩
      · intro t ht
        rcases List.mem_append.mp ht with hmem | hmem
        · simp only [List.mem_singleton] at hmem
          subst hmem
          exact ⟨h1, h2⟩
        · exact ihBand t hmem
      · intro t ht
        rcases List.mem_append.mp ht with hmem | hmem
        · simp only [List.mem_singleton] at hmem
          subst hmem
          exact le_rfl
        · have := ihRow t hmem
          omega
      · refine List.pairwise_append.mpr ⟨List.pairwise_singleton _ _, ihMono, ?_⟩
        intro a haA b hbB
        simp only [List.mem_singleton] at haA
        subst haA
        have := ihRow b hbB
        show y ≤ b.2
        omega
      · refine rowsLinked_append (m := y) (j := x) (rowsLinked_single x y) ihLink ?_ ?_ ?_
        · intro t ht
          simp only [List.mem_singleton] at ht
          subst ht
          exact le_rfl
        · exact ihRow
        · intro hBne
          have hm : m ≠ 0 := by
            intro h0
            subst h0
            exact hBne rfl
          refine ⟨by simp, ?_⟩
          exact List.mem_of_mem_head? (by rw [ihHead hm]; rfl)
      · intro _
        simp
    · have hL : genLoop rs i (m + 1) x y
          = [(x, y), (x', y), (x', y + 1)] ++ genLoop rs (i + 1) m x' (y + 2) := by
        simp only [genLoop, hst]
      obtain ⟨ihBand, ihRow, ihMono, ihLink, ihHead⟩ := ih (i + 1) x' (y + 2) hx'1 hx'2
      rw [hL]
      refine ⟨?_, ?_, ?_, ?_, ?_⟩
      · intro t ht
        rcases List.mem_append.mp ht with hmem | hmem
        · simp only [List.mem_cons, List.not_mem_nil, or_false] at hmem
          rcases hmem with rfl | rfl | rfl
          · exact ⟨h1, h2⟩
          · exact ⟨hx'1, hx'2⟩
          · exact ⟨hx'1, hx'2⟩
        · exact ihBand t hmem
      · intro t ht
        rcases List.mem_append.mp ht with hmem | hmem
        · simp only [List.mem_cons, List.not_mem_nil, or_false] at hmem
          rcases hmem with rfl | rfl | rfl
          · exact le_rfl
          · exact le_rfl
          · show y ≤ y + 1
            omega
        · have := ihRow t hmem
          omega
      · refine List.pairwise_append.mpr ⟨?_, ihMono, ?_⟩
        · refine List.Pairwise.cons ?_ (List.Pairwise.cons ?_ (List.pairwise_singleton _ _))
          · intro b hb
            simp only [List.mem_cons, List.not_mem_nil, or_false] at hb
            rcases hb with rfl | rfl
            · exact le_rfl
            · show y ≤ y + 1
              omega
          · intro b hb
            simp only [List.mem_singleton] at hb
            subst hb
            show y ≤ y + 1
            omega
        · intro a haA b hbB
          have hbrow := ihRow b hbB
          simp only [List.mem_cons, List.not_mem_nil, or_false] at haA
          rcases haA with rfl | rfl | rfl
          · show y ≤ b.2
            omega
          · show y ≤ b.2
            omega
          · show y + 1 ≤ b.2
            omega
      · refine rowsLinked_append (m := y + 1) (j := x')
          (rowsLinked_turn x x' y) ihLink ?_ ?_ ?_
        · intro t ht
          simp only [List.mem_cons, List.not_mem_nil, or_false] at ht
          rcases ht with rfl | rfl | rfl
          · show y ≤ y + 1
            omega
          · show y ≤ y + 1
            omega
          · exact le_rfl
        · intro t ht
          have := ihRow t ht
          omega
        · intro hBne
          have hm : m ≠ 0 := by
            intro h0
            subst h0
            exact hBne rfl
          refine ⟨by simp, ?_⟩
          have hyy : y + 1 + 1 = y + 2 := by ring
          rw [hyy]
          exact List.mem_of_mem_head? (by rw [ihHead hm]; rfl)
      · intro _
        simp

theorem rowsLinked_filter {cur : ℤ} {tiles : List (ℤ × ℤ)} (h : rowsLinked tiles) :
    rowsLinked (tiles.filter (fun t => !decide (t.2 < cur))) := by
  rintro z ⟨a, ha⟩ ⟨b, hb⟩
  have hamem := List.mem_filter.mp ha
  have hbmem := List.mem_filter.mp hb
  obtain ⟨w, h1, h2⟩ := h z ⟨a, hamem.1⟩ ⟨b, hbmem.1⟩
  refine ⟨w, List.mem_filter.mpr ⟨h1, ?_⟩, List.mem_filter.mpr ⟨h2, ?_⟩⟩
  · simpa using hamem.2
  · simpa using hbmem.2

theorem generate_tiles_preserves_trackInv (rs : ℕ → ℕ) (cur : ℤ)
    (tiles : List (ℤ × ℤ)) (h : trackInv tiles) :
    trackInv (generate_tiles rs cur tiles) := by
  obtain ⟨hmono, hlink, hband⟩ := h
  simp only [generate_tiles, evictLoop_eq_filter]
  set kept := tiles.filter (fun t => !decide (t.2 < cur)) with hkeq
  have hkmono : rowsMonotone kept := List.Pairwise.sublist (List.filter_sublist _) hmono
  have hklink : rowsLinked kept := rowsLinked_filter hlink
  have hkband : laneInBand kept := fun t ht => hband t (List.mem_filter.mp ht).1
  cases hgl : kept.getLast? with
  | none =>
    have hknil : kept = [] := List.getLast?_eq_none_iff.mp hgl
    rw [hknil]
    obtain ⟨iband, irow, imono, ilink, _⟩ :=
      genLoop_inv rs (NB_TILES - List.length ([] : List (ℤ × ℤ))) 0 0 5
        (by decide) (by decide)
    exact ⟨imono, ilink, iband⟩
  | some t =>
    have htmem : t ∈ kept := List.mem_of_getLast?_eq_some hgl
    have htband := hkband t htmem
    obtain ⟨iband, irow, imono, ilink, ihead⟩ :=
      genLoop_inv rs (NB_TILES - kept.length) 0 t.1 (t.2 + 1) htband.1 htband.2
    have hbound := rowsMonotone_le_getLast kept t hkmono hgl
    refine ⟨?_, ?_, ?_⟩
    · refine List.pairwise_append.mpr ⟨hkmono, imono, ?_⟩
      intro a ha b hb
      have h1 := hbound a ha
      have h2 := irow b hb
      omega
    · refine rowsLinked_append (m := t.2) (j := t.1) hklink ilink hbound irow ?_
      intro hBne
      have hn : NB_TILES - kept.length ≠ 0 := by
        intro h0
        rw [h0] at hBne
        exact hBne rfl
      exact ⟨by simpa using htmem, List.mem_of_mem_head? (by rw [ihead hn]; rfl)⟩
    · intro q hq
      rcases List.mem_append.mp hq with hmem | hmem
      · exact hkband q hmem
      · exact iband q hmem

theorem reset_tiles_trackInv (rs : ℕ → ℕ) : trackInv (reset_tiles rs) := by
  apply generate_tiles_preserves_trackInv
  refine ⟨by unfold rowsMonotone init_track; decide, ?_, ?_⟩
  · rintro z ⟨a, ha⟩ ⟨b, hb⟩
    simp only [init_track, List.mem_cons, List.not_mem_nil, or_false,
      Prod.mk.injEq] at ha hb
    rcases ha with ⟨_, rfl⟩ | ⟨_, rfl⟩ | ⟨_, rfl⟩ | ⟨_, rfl⟩ | ⟨_, rfl⟩ | ⟨_, rfl⟩ | ⟨_, rfl⟩ | ⟨_, rfl⟩ | ⟨_, rfl⟩ | ⟨_, rfl⟩ <;>
      first
        | exact ⟨0, by decide, by decide⟩
        | (rcases hb with ⟨_, h'⟩ | ⟨_, h'⟩ | ⟨_, h'⟩ | ⟨_, h'⟩ | ⟨_, h'⟩ | ⟨_, h'⟩ | ⟨_, h'⟩ | ⟨_, h'⟩ | ⟨_, h'⟩ | ⟨_, h'⟩ <;> omega)
  · intro t ht
    simp only [init_track, List.mem_cons, List.not_mem_nil, or_false] at ht
    rcases ht with rfl | rfl | rfl | rfl | rfl | rfl | rfl | rfl | rfl | rfl <;> decide

/-- C4: the track generator establishes and preserves the track invariant:
rows appear in travel order, every present row shares a lane with the row
before it (no row is disconnected), and every lane stays within the
boundary band `[start_index, end_index]` (turns are forced at the outer
boundaries). -/
theorem track_generator_invariant :
    (∀ rs : ℕ → ℕ, trackInv (reset_tiles rs)) ∧
    (∀ (rs : ℕ → ℕ) (cur : ℤ) (tiles : List (ℤ × ℤ)),
      trackInv tiles → trackInv (generate_tiles rs cur tiles)) :=
  ⟨reset_tiles_trackInv, generate_tiles_preserves_trackInv⟩

/-- Witness for `track_generator_invariant`: generating from an empty
track (which trivially satisfies the invariant) yields an invariant-
satisfying track. -/
theorem track_generator_invariant_witness :
    trackInv (generate_tiles (fun _ => 0) 0 []) :=
  track_generator_invariant.2 (fun _ => 0) 0 []
    ⟨List.Pairwise.nil,
     by rintro z ⟨a, ha⟩ _; simp at ha,
     by intro t ht; simp at ht⟩

/-- C5 counterexample: the claim predicts a tile with
`row = current_row - 1` is retained, but the generator evicts every tile
with `row < current_row`: at `current_row = 5` the tile `(0, 4)` is
evicted. -/
theorem tile_eviction_threshold_counterexample :
    (0, 4) ∉ generate_tiles (fun _ => 0) 5 [(0, 4)] := by
  decide

/-- C5 (amended): a tile is evicted exactly once its row satisfies
`row < current_row`; every tile with `row ≥ current_row` is retained
verbatim and in order, and the generator output is that retained prefix
followed by freshly appended tiles — tiles are never mutated. -/
theorem tile_eviction_spec (rs : ℕ → ℕ) (cur : ℤ) (tiles : List (ℤ × ℤ)) :
    (∃ fresh : List (ℤ × ℤ),
      generate_tiles rs cur tiles
        = tiles.filter (fun t => !decide (t.2 < cur)) ++ fresh) ∧
      (∀ t ∈ tiles, cur ≤ t.2 → t ∈ generate_tiles rs cur tiles) ∧
      (∀ t ∈ tiles, t.2 < cur → t ∉ tiles.filter (fun t => !decide (t.2 < cur))) := by
  refine ⟨?_, ?_, ?_⟩
  · simp only [generate_tiles, evictLoop_eq_filter]
    exact ⟨_, rfl⟩
  · intro t ht hge
    simp only [generate_tiles, evictLoop_eq_filter]
    refine List.mem_append_left _ (List.mem_filter.mpr ⟨ht, ?_⟩)
    simp
    omega
  · intro t ht hlt hmem
    have := (List.mem_filter.mp hmem).2
    simp at this
    omega

/-- Witness for `tile_eviction_spec`: at `current_row = 6` the tile
`(0, 7)` survives generation. -/
theorem tile_eviction_spec_witness :
    ((0:ℤ), (7:ℤ)) ∈ generate_tiles (fun _ => 0) 6 [(0, 7)] := by
  obtain ⟨_, hret, _⟩ := tile_eviction_spec (fun _ => 0) 6 [(0, 7)]
  exact hret (0, 7) (by decide) (by decide)

end Galaxy
